import Mathlib

/-!
Shallow embedding of the manga download-and-delivery pipeline
(`src/scripts/download.js` and the companion scripts under `src/unnamed/`).

Numeric chapter keys are JavaScript floats used only for parsing,
comparison and sorting; they are modelled as rationals (`ℚ`).  Byte
counts are modelled as `Nat`.  Each stateful loop of the source is
modelled as a structurally recursive Lean function over the list of the
loop's inputs.
-/

namespace MangaPipeline

/-! ### Chapter descriptors and numeric-key parsing -/

/-- A raw chapter descriptor as consumed by `selectChapters`
(`src/scripts/download.js`): the fields the function reads are the raw
chapter-number string (`ch.chapter`, absent modelled as `none`), the
truthiness of `ch.externalUrl`, and `ch.translatedLanguage`.  The `tag`
field stands for the remaining payload (`id`, `title`, ...) and gives
descriptors their identity. -/
structure ChapterRef where
  chapter : Option String
  externalUrl : Bool
  translatedLanguage : String
  tag : Nat
deriving Repr, DecidableEq

/-- Value of a list of decimal digits read left to right. -/
def digitsVal (ds : List Nat) : Nat := ds.foldl (fun a d => 10 * a + d) 0

/-- Longest run of decimal digits at the front of the character list,
together with the remaining characters (models `parseFloat`'s greedy
digit scanning). -/
def takeDigits : List Char → List Nat × List Char
  | [] => ([], [])
  | c :: cs =>
    if c.isDigit then
      let p := takeDigits cs
      ((c.toNat - 48) :: p.1, p.2)
    else ([], c :: cs)

/-- Optional exponent suffix `e`/`E` `[+-]? digits` of a float literal;
`none` when no well-formed exponent follows (JS `parseFloat` then keeps
only the mantissa). -/
def parseExponent : List Char → Option Int
  | [] => none
  | c :: cs =>
    if c = 'e' ∨ c = 'E' then
      let p : Int × List Char :=
        match cs with
        | '+' :: t => (1, t)
        | '-' :: t => (-1, t)
        | t => (1, t)
      let d := takeDigits p.2
      if d.1 = [] then none else some (p.1 * Int.ofNat (digitsVal d.1))
    else none

/-- Model of JavaScript `parseFloat` on the characters of a string:
skip leading whitespace, optional sign, integer digits, optional `.`
with fraction digits, optional exponent; `none` models `NaN` (no digit
consumed).  The literals `Infinity`/`-Infinity` are not modelled: the
former is discarded by `selectChapters` exactly like `NaN`, and the
latter is outside `ℚ` and outside every property considered here. -/
def parseFloatQ (cs : List Char) : Option ℚ :=
  let cs₁ := cs.dropWhile (fun c => c = ' ' ∨ c = '\t' ∨ c = '\n' ∨ c = '\r')
  let sp : Int × List Char :=
    match cs₁ with
    | '+' :: t => (1, t)
    | '-' :: t => (-1, t)
    | t => (1, t)
  let ip := takeDigits sp.2
  let fp : List Nat × List Char :=
    match ip.2 with
    | '.' :: t => takeDigits t
    | r => ([], r)
  if ip.1 = [] ∧ fp.1 = [] then none
  else
    -- sign * (intPart + fracPart / 10 ^ fracLen) * 10 ^ exponent, assembled
    -- as a single exact integer quotient: the ideal value of the literal
    let mantNum : Int := sp.1 * Int.ofNat (digitsVal ip.1 * 10 ^ fp.1.length + digitsVal fp.1)
    let e : Int := (parseExponent fp.2).getD 0
    if 0 ≤ e then
      some (Rat.divInt (mantNum * Int.ofNat (10 ^ e.toNat)) (Int.ofNat (10 ^ fp.1.length)))
    else
      some (Rat.divInt mantNum (Int.ofNat (10 ^ fp.1.length * 10 ^ (-e).toNat)))

/-- Function `parseChapterNum` from the source combined with the caller's
`chapNum === Infinity` skip check: the source function returns
`Infinity` for a missing/empty/unparsable chapter string, and every
call site discards exactly the `Infinity` results, so the embedding
returns `none` in precisely those cases. -/
def parseChapterNum (chapStr : Option String) : Option ℚ :=
  match chapStr with
  | none => none
  | some s => if s = "" then none else parseFloatQ s.toList

/-! ### ChapterSelector (`selectChapters`) -/

/-- One value of the `chapterMap`: `{ english: null, other: null }`
progressively filled while scanning the descriptor list. -/
structure LangEntry where
  english : Option ChapterRef
  other : Option ChapterRef
deriving Repr, DecidableEq

/-- The body of the grouping loop acting on one map entry:
`if (isEnglish) entry.english = ch; else if (!entry.other) entry.other = ch;` -/
def updateEntry (e : LangEntry) (ch : ChapterRef) : LangEntry :=
  if ch.translatedLanguage = "en" then { e with english := some ch }
  else if e.other = none then { e with other := some ch }
  else e

/-- Insert-or-update of the `chapterMap`, modelled as an insertion-order
association list exactly like a JavaScript `Map`: an existing key is
updated in place, a new key is appended at the end. -/
def insertChapter (m : List (ℚ × LangEntry)) (k : ℚ) (ch : ChapterRef) :
    List (ℚ × LangEntry) :=
  match m with
  | [] => [(k, updateEntry ⟨none, none⟩ ch)]
  | (k', e) :: rest =>
    if k' = k then (k', updateEntry e ch) :: rest
    else (k', e) :: insertChapter rest k ch

/-- Lookup `chapterMap.get(k)`; the default `⟨none, none⟩` models `undefined`
(never read by the source, which only looks up keys of the map). -/
def lookupEntry (m : List (ℚ × LangEntry)) (k : ℚ) : LangEntry :=
  match m with
  | [] => ⟨none, none⟩
  | (k', e) :: rest => if k' = k then e else lookupEntry rest k

/-- One iteration of the grouping loop of `selectChapters`:
`if (!ch.chapter || ch.externalUrl) continue;` then parse, then
`if (chapNum === Infinity) continue;` (the two skip conditions on the
string are folded into `parseChapterNum`), then update the map. -/
def selectStep (m : List (ℚ × LangEntry)) (ch : ChapterRef) :
    List (ℚ × LangEntry) :=
  if ch.externalUrl then m
  else
    match parseChapterNum ch.chapter with
    | none => m
    | some k => insertChapter m k ch

/-- The `chapterMap` built by the first loop of `selectChapters`. -/
def buildMap (allChapters : List ChapterRef) : List (ℚ × LangEntry) :=
  allChapters.foldl selectStep []

/-- One element pushed on `selected`:
`{ ...chosen, _isEnglish: !!entry.english, _chapNum: chapNum }`. -/
structure SelectedChapter where
  ch : ChapterRef
  isEnglish : Bool
  chapNum : ℚ
deriving Repr, DecidableEq

/-- The selection loop of `selectChapters` over the sorted keys, with
the remaining capacity `maxChapters - selected.length` as the `Nat`
argument (the loop breaks exactly when the capacity is exhausted, and
the capacity is unchanged by an iteration that pushes nothing). -/
def selectLoop (m : List (ℚ × LangEntry)) : List ℚ → Nat → List SelectedChapter
  | _, 0 => []
  | [], _ + 1 => []
  | k :: ks, n + 1 =>
    match (lookupEntry m k).english, (lookupEntry m k).other with
    | some c, _ => ⟨c, true, k⟩ :: selectLoop m ks n
    | none, some c => ⟨c, false, k⟩ :: selectLoop m ks n
    | none, none => selectLoop m ks (n + 1)

/-- Function `selectChapters(allChapters, maxChapters)` from
`src/scripts/download.js`: group by parsed numeric key, sort the keys
ascending (`Array.from(map.keys()).sort((a,b) => a - b)`, modelled by
`insertionSort` — the keys are distinct so any sort yields the same
list), then select at most `maxChapters` entries preferring the English
descriptor of each group. -/
def selectChapters (allChapters : List ChapterRef) (maxChapters : Nat) :
    List SelectedChapter :=
  selectLoop (buildMap allChapters)
    (List.insertionSort (· ≤ ·) ((buildMap allChapters).map Prod.fst)) maxChapters

/-! ### ChapterSelector lemmas -/

/-- First defined alternative of two optional values (`x || y` on nullable
JavaScript values). -/
def firstSome {α : Type} : Option α → Option α → Option α
  | some a, _ => some a
  | none, b => b

/-- The filter `selectChapters` applies before grouping, together with the
numeric key the descriptor is grouped under. -/
def chapterValidFor (k : ℚ) (ch : ChapterRef) : Prop :=
  ch.externalUrl = false ∧ parseChapterNum ch.chapter = some k

instance (k : ℚ) (ch : ChapterRef) : Decidable (chapterValidFor k ch) :=
  inferInstanceAs (Decidable (_ ∧ _))

/-- The last descriptor of the input that is valid for key `k` and in the
preferred language: each later `en` descriptor overwrites `entry.english`. -/
def lastEnglish (k : ℚ) : List ChapterRef → Option ChapterRef
  | [] => none
  | ch :: rest =>
    match lastEnglish k rest with
    | some c => some c
    | none =>
      if chapterValidFor k ch ∧ ch.translatedLanguage = "en" then some ch else none

/-- The first descriptor of the input that is valid for key `k` and not in
the preferred language: `entry.other` is written only while still `null`. -/
def firstOther (k : ℚ) : List ChapterRef → Option ChapterRef
  | [] => none
  | ch :: rest =>
    if chapterValidFor k ch ∧ ch.translatedLanguage ≠ "en" then some ch
    else firstOther k rest

/-! ### Bundler: `groupChapters` (src/unnamed/part_000) -/

/-- One per-chapter archive as pushed on `chapterList` in
`src/unnamed/part_000` after a successful download and pack: the fields
`groupChapters` reads are `size` (bytes, returned by `createZip`) and
`chapterNum`; `tag` stands for the rest of the record (`zipPath`,
`zipName`, `title`, `lang`, `chapDirName`). -/
structure ChapterArchive where
  size : Nat
  chapterNum : ℚ
  tag : Nat
deriving Repr, DecidableEq

/-- One bundle built by `groupChapters`. -/
structure ChapterGroup where
  chapters : List ChapterArchive
  totalSize : Nat
  startChapter : ℚ
  endChapter : ℚ
deriving Repr, DecidableEq

/-- The `groupChapters` loop from the second chapter on: `currentGroup`
is `null` only before the first chapter, so the embedding starts the
recursion with the group already holding the first chapter.  The cap is
compared against a running sum of floating-point megabytes
(`chapter.size / (1024*1024)`), carried here as the exact rational
`curSize`. -/
def groupChaptersAux (maxSizeMB : ℚ) :
    List ChapterArchive → ChapterGroup → ℚ → List ChapterGroup
  | [], g, _ => [g]
  | ch :: rest, g, curSize =>
    let chapterSizeMB : ℚ := (ch.size : ℚ) / (1024 * 1024)
    if curSize + chapterSizeMB ≤ maxSizeMB then
      groupChaptersAux maxSizeMB rest
        ⟨g.chapters ++ [ch], g.totalSize + ch.size, g.startChapter, ch.chapterNum⟩
        (curSize + chapterSizeMB)
    else
      g :: groupChaptersAux maxSizeMB rest
        ⟨[ch], ch.size, ch.chapterNum, ch.chapterNum⟩ chapterSizeMB

/-- Function `groupChapters(chapterList, maxSizeMB)` from `src/unnamed/part_000`:
greedy, single-pass, order-preserving grouping of per-chapter archives
under the megabyte cap. -/
def groupChapters (chapterList : List ChapterArchive) (maxSizeMB : ℚ) :
    List ChapterGroup :=
  match chapterList with
  | [] => []
  | ch :: rest =>
    groupChaptersAux maxSizeMB rest
      ⟨[ch], ch.size, ch.chapterNum, ch.chapterNum⟩
      ((ch.size : ℚ) / (1024 * 1024))

/-! ### Bundling loop of `main` (src/scripts/download.js) -/

/-- Telegram's single-document size limit as hardcoded in
`src/scripts/download.js`: `TELEGRAM_FILE_LIMIT = 50 * 1024 * 1024`. -/
def TELEGRAM_FILE_LIMIT : Nat := 50 * 1024 * 1024

/-- One record pushed on `currentBundle.chapters` by the chapter loop of
`main`: `{ zipPath, chapNum, langCode, pages, size }`; `tag` stands for
`zipPath`, `langCode` and `pages`. -/
structure BundleChapter where
  tag : Nat
  chapNum : ℚ
  size : Nat
deriving Repr, DecidableEq

/-- The mutable `currentBundle` / one element of `bundles`. -/
structure MainBundle where
  chapters : List BundleChapter
  size : Nat
deriving Repr, DecidableEq

/-- One iteration of the chapter loop of `main`: the chapter working
directory `chapDir` (identified by `dirId`) is created unconditionally;
`outcome` is `some c` when download and pack succeed (the archive `c`
then enters the bundling bookkeeping and `rmSync(chapDir)` runs), and
`none` when any step throws (the `catch` only logs, so the directory
stays behind). -/
structure MainStep where
  dirId : Nat
  outcome : Option BundleChapter
deriving Repr, DecidableEq

/-- Result of the chapter loop: the bundles accumulated (including the
final `if (currentBundle.chapters.length > 0) bundles.push(...)`) and
the chapter working directories still on disk afterwards. -/
structure MainLoopResult where
  bundles : List MainBundle
  leftoverDirs : List Nat
deriving Repr, DecidableEq

def mainChapterLoopAux : List MainStep → MainBundle → MainLoopResult
  | [], cur => ⟨if 0 < cur.chapters.length then [cur] else [], []⟩
  | st :: rest, cur =>
    match st.outcome with
    | none =>
      let r := mainChapterLoopAux rest cur
      ⟨r.bundles, st.dirId :: r.leftoverDirs⟩
    | some c =>
      if TELEGRAM_FILE_LIMIT < cur.size + c.size ∧ 0 < cur.chapters.length then
        let r := mainChapterLoopAux rest ⟨[c], c.size⟩
        ⟨cur :: r.bundles, r.leftoverDirs⟩
      else
        mainChapterLoopAux rest ⟨cur.chapters ++ [c], cur.size + c.size⟩

/-- The chapter loop of `main` in `src/scripts/download.js` (download,
pack, bundle bookkeeping, per-chapter try/catch), started with the empty
`currentBundle = { chapters: [], size: 0 }`. -/
def mainChapterLoop (steps : List MainStep) : MainLoopResult :=
  mainChapterLoopAux steps ⟨[], 0⟩

/-! ### ResilientSender: splitFile (src/unnamed/part_000) -/

/-- The safe chunk size used by the splitting sender
(`MAX_SPLIT_SIZE = 45 * 1024 * 1024` in `src/unnamed/part_000`). -/
def MAX_SPLIT_SIZE : Nat := 45 * 1024 * 1024

/-- Function `splitFile(filePath, maxChunkSize)` from `src/unnamed/part_000`:
the file content (an arbitrary element list standing for the byte
buffer) is cut into consecutive
`buffer.slice(offset, offset + maxChunkSize)` chunks.  The source's
`while (offset < buffer.length)` loop never terminates when
`maxChunkSize = 0`; the embedding returns `[]` on that unreachable
input (every call site passes the constant `MAX_SPLIT_SIZE`). -/
def splitFile {β : Type} (buffer : List β) (maxChunkSize : Nat) :
    List (List β) :=
  if buffer.length = 0 then []
  else if maxChunkSize = 0 then []
  else
    buffer.take maxChunkSize ::
      splitFile (buffer.drop maxChunkSize) maxChunkSize
termination_by buffer.length
decreasing_by
  simp only [List.length_drop]
  omega

/-- The chunk lengths `splitFile` produces from a buffer of length `n`
with chunk size `m` (helper for stating the split scenario on a 120 MB
buffer without evaluating a 120-million-element list). -/
def chunkSizes (n m : Nat) : List Nat :=
  if n = 0 then []
  else if m = 0 then []
  else min m n :: chunkSizes (n - m) m
termination_by n
decreasing_by omega

/-! ### ResilientSender: the retry loop of sendDocumentWithThumb
(src/scripts/download.js) -/

/-- Outcome of one upload attempt as classified by the loop body of
`sendDocumentWithThumb`: `ok` is `data.ok`; `rateLimited` is a response
whose description contains `Too Many Requests`, carrying the seconds
parsed from `retry after N` when present; `apiError` is any other
`!data.ok` response; `netError` is a thrown fetch/parse error. -/
inductive AttemptOutcome where
  | ok
  | rateLimited (retryAfterSecs : Option Nat)
  | apiError
  | netError
deriving Repr, DecidableEq

/-- The retry delay `2000 * attempt` (milliseconds) slept after a
non-rate-limited failure when another attempt remains. -/
def backoffMs (attempt : Nat) : Nat := 2000 * attempt

/-- The wait `Math.min(retryAfter * 1000, 10000)`, with `retryAfter` defaulting
to 3 when the error text carries no `retry after N` hint. -/
def rateLimitWaitMs (retryAfterSecs : Option Nat) : Nat :=
  min (retryAfterSecs.getD 3 * 1000) 10000

/-- The attempt bound of the upload loop (`for attempt = 1..3`; the
source hardcodes the literal 3). -/
def SEND_MAX_ATTEMPTS : Nat := 3

inductive SendResult where
  | success
  | exhausted
  | thrown
deriving Repr, DecidableEq

/-- Attempt count, total enforced wait (milliseconds) and final result
of one `sendDocumentWithThumb` call. -/
structure SendTrace where
  attempts : Nat
  totalWaitMs : Nat
  result : SendResult
deriving Repr, DecidableEq

/-- The retry loop of `sendDocumentWithThumb` with `remaining` loop
iterations left, the 1-based `attempt` counter and the wait accumulated
so far.  Per the source: a rate-limited attempt sleeps the capped
server-declared wait even when it was the final attempt; any other API
error sleeps `backoffMs attempt` only while `attempt < 3`; a thrown
error on attempt 3 propagates (`if (attempt === 3) throw err`), earlier
throws sleep `backoffMs attempt` and retry; falling out of the loop
returns `null`. -/
def sendLoopAux (responses : Nat → AttemptOutcome) :
    Nat → Nat → Nat → SendTrace
  | 0, attempt, w => ⟨attempt - 1, w, .exhausted⟩
  | remaining + 1, attempt, w =>
    match responses attempt with
    | .ok => ⟨attempt, w, .success⟩
    | .rateLimited ra =>
      sendLoopAux responses remaining (attempt + 1) (w + rateLimitWaitMs ra)
    | .apiError =>
      if attempt < SEND_MAX_ATTEMPTS then
        sendLoopAux responses remaining (attempt + 1) (w + backoffMs attempt)
      else sendLoopAux responses remaining (attempt + 1) w
    | .netError =>
      if attempt = SEND_MAX_ATTEMPTS then ⟨attempt, w, .thrown⟩
      else sendLoopAux responses remaining (attempt + 1) (w + backoffMs attempt)

/-- Function `sendDocumentWithThumb` under a given sequence of per-attempt
outcomes (network and destination behaviour abstracted by `responses`). -/
def sendDocumentWithThumb (responses : Nat → AttemptOutcome) : SendTrace :=
  sendLoopAux responses SEND_MAX_ATTEMPTS 1 0

/-! ### Run-abort behaviour of main (src/scripts/download.js) -/

/-- The run-level conditions that decide between the abort paths of
`main`: whether each required environment variable is present, whether
the work inside the `try` before selection throws (e.g. the catalog
lookup `Manga.get`), and whether the selection comes back empty. -/
structure RunCondition where
  mangaInputSet : Bool
  chatIdSet : Bool
  botTokenSet : Bool
  catalogOk : Bool
  selectionEmpty : Bool
deriving Repr, DecidableEq

/-- Exit code of the process and how many user-visible failure
notifications were attempted before it exited. -/
structure RunOutcome where
  exitCode : Nat
  failureNotices : Nat
deriving Repr, DecidableEq

/-- The abort structure of `main`: the three missing-configuration
checks call `process.exit(1)` before the `try`, attempting no
notification; a throw inside the `try` reaches the `catch`, which
attempts exactly one `sendText` failure notification and then exits 1;
the empty-selection check calls `process.exit(1)` from inside the `try`
without raising, so the `catch` never runs and no notification is
attempted; a run that aborts nowhere exits 0 (delivery failures are
contained per artifact and never abort). -/
def mainRunOutcome (c : RunCondition) : RunOutcome :=
  if !c.mangaInputSet then ⟨1, 0⟩
  else if !c.chatIdSet then ⟨1, 0⟩
  else if !c.botTokenSet then ⟨1, 0⟩
  else if !c.catalogOk then ⟨1, 1⟩
  else if c.selectionEmpty then ⟨1, 0⟩
  else ⟨0, 0⟩

/-! ### Theorems -/

theorem firstSome_none {α : Type} (x : Option α) : firstSome x none = x := by
  cases x <;> rfl

theorem firstSome_none_left {α : Type} (x : Option α) : firstSome none x = x := rfl

theorem firstSome_assoc {α : Type} (a b c : Option α) :
    firstSome (firstSome a b) c = firstSome a (firstSome b c) := by
  cases a <;> cases b <;> rfl

theorem lastEnglish_cons (k : ℚ) (ch : ChapterRef) (rest : List ChapterRef) :
    lastEnglish k (ch :: rest) =
      firstSome (lastEnglish k rest)
        (if chapterValidFor k ch ∧ ch.translatedLanguage = "en" then some ch
         else none) := by
  cases h : lastEnglish k rest <;> simp [lastEnglish, h, firstSome]

theorem lookupEntry_insertChapter (m : List (ℚ × LangEntry)) (k₀ k : ℚ)
    (ch : ChapterRef) :
    lookupEntry (insertChapter m k₀ ch) k =
      if k = k₀ then updateEntry (lookupEntry m k₀) ch else lookupEntry m k := by
  induction m with
  | nil =>
    by_cases h : k = k₀
    · subst h; simp [insertChapter, lookupEntry]
    · simp [insertChapter, lookupEntry, h, Ne.symm h]
  | cons p rest ih =>
    obtain ⟨k', e⟩ := p
    by_cases h1 : k' = k₀
    · subst h1
      by_cases h2 : k = k'
      · subst h2; simp [insertChapter, lookupEntry]
      · simp [insertChapter, lookupEntry, h2, Ne.symm h2]
    · by_cases h2 : k' = k
      · subst h2
        simp [insertChapter, lookupEntry, h1]
      · simp [insertChapter, lookupEntry, h1, h2, ih]

theorem insertChapter_keys (m : List (ℚ × LangEntry)) (k : ℚ) (ch : ChapterRef) :
    (insertChapter m k ch).map Prod.fst =
      if k ∈ m.map Prod.fst then m.map Prod.fst else m.map Prod.fst ++ [k] := by
  induction m with
  | nil => simp [insertChapter]
  | cons p rest ih =>
    obtain ⟨k', e⟩ := p
    by_cases h : k' = k
    · subst h; simp [insertChapter]
    · simp [insertChapter, h, Ne.symm h, ih]
      by_cases hm : k ∈ rest.map Prod.fst <;> simp [hm, Ne.symm h]

/-- Complete description of the `chapterMap`: for every key, the `english`
slot holds the last-seen valid preferred-language descriptor and the
`other` slot holds the first-seen valid non-preferred descriptor. -/
theorem lookupEntry_foldl (l : List ChapterRef) (m : List (ℚ × LangEntry)) (k : ℚ) :
    lookupEntry (l.foldl selectStep m) k =
      ⟨firstSome (lastEnglish k l) (lookupEntry m k).english,
        firstSome (lookupEntry m k).other (firstOther k l)⟩ := by
  induction l generalizing m with
  | nil => simp [lastEnglish, firstOther, firstSome_none, firstSome_none_left]
  | cons ch rest ih =>
    rw [List.foldl_cons, ih]
    cases hx : ch.externalUrl with
    | true =>
      have hnv : ¬ chapterValidFor k ch := by
        rintro ⟨hfalse, -⟩
        rw [hx] at hfalse
        cases hfalse
      rw [lastEnglish_cons]
      simp [selectStep, hx, hnv, firstSome_none, firstOther]
    | false =>
      cases hp : parseChapterNum ch.chapter with
      | none =>
        have hnv : ¬ chapterValidFor k ch := by
          rintro ⟨-, hpk⟩
          rw [hp] at hpk
          cases hpk
        rw [lastEnglish_cons]
        simp [selectStep, hx, hp, hnv, firstSome_none, firstOther]
      | some k₀ =>
        simp only [selectStep, hx, hp, Bool.false_eq_true, if_false]
        rw [lookupEntry_insertChapter]
        by_cases hk : k = k₀
        · subst hk
          rw [if_pos rfl]
          have hv : chapterValidFor k ch := ⟨hx, hp⟩
          by_cases hen : ch.translatedLanguage = "en"
          · rw [lastEnglish_cons]
            simp only [hv, hen, and_self, if_true, updateEntry, firstSome_assoc]
            simp [firstOther, hen, firstSome]
          · have hcond : ¬(chapterValidFor k ch ∧ ch.translatedLanguage = "en") := by
              rintro ⟨-, h⟩
              exact hen h
            rw [lastEnglish_cons, if_neg hcond, firstSome_none]
            cases ho : (lookupEntry m k).other with
            | none => simp [updateEntry, hen, ho, firstOther, hv, firstSome]
            | some c' => simp [updateEntry, hen, ho, firstSome]
        · rw [if_neg hk]
          have hnv : ¬ chapterValidFor k ch := by
            rintro ⟨-, hpk⟩
            rw [hp] at hpk
            injection hpk with h
            exact hk h.symm
          rw [lastEnglish_cons]
          simp [hnv, firstSome_none, firstOther]

/-- The `chapterMap` of `selectChapters`, described entry by entry. -/
theorem lookupEntry_buildMap (l : List ChapterRef) (k : ℚ) :
    lookupEntry (buildMap l) k = ⟨lastEnglish k l, firstOther k l⟩ := by
  rw [buildMap, lookupEntry_foldl]
  simp [lookupEntry, firstSome_none, firstSome_none_left]

theorem lastEnglish_eq_some {k : ℚ} {l : List ChapterRef} {c : ChapterRef}
    (h : lastEnglish k l = some c) :
    c ∈ l ∧ chapterValidFor k c ∧ c.translatedLanguage = "en" := by
  induction l with
  | nil => cases h
  | cons ch rest ih =>
    cases hr : lastEnglish k rest with
    | some c' =>
      simp only [lastEnglish, hr] at h
      injection h with h'
      subst h'
      obtain ⟨h1, h2, h3⟩ := ih hr
      exact ⟨List.mem_cons_of_mem _ h1, h2, h3⟩
    | none =>
      simp only [lastEnglish, hr] at h
      by_cases hcond : chapterValidFor k ch ∧ ch.translatedLanguage = "en"
      · rw [if_pos hcond] at h
        injection h with h'
        subst h'
        exact ⟨List.mem_cons_self _ _, hcond.1, hcond.2⟩
      · rw [if_neg hcond] at h
        cases h

theorem firstOther_eq_some {k : ℚ} {l : List ChapterRef} {c : ChapterRef}
    (h : firstOther k l = some c) :
    c ∈ l ∧ chapterValidFor k c ∧ c.translatedLanguage ≠ "en" := by
  induction l with
  | nil => cases h
  | cons ch rest ih =>
    rw [firstOther] at h
    by_cases hcond : chapterValidFor k ch ∧ ch.translatedLanguage ≠ "en"
    · rw [if_pos hcond] at h
      injection h with h'
      subst h'
      exact ⟨List.mem_cons_self _ _, hcond.1, hcond.2⟩
    · rw [if_neg hcond] at h
      obtain ⟨h1, h2, h3⟩ := ih h
      exact ⟨List.mem_cons_of_mem _ h1, h2, h3⟩

theorem lastEnglish_isSome {k : ℚ} {l : List ChapterRef} {c : ChapterRef}
    (hc : c ∈ l) (hv : chapterValidFor k c) (hen : c.translatedLanguage = "en") :
    ∃ c', lastEnglish k l = some c' := by
  induction l with
  | nil => cases hc
  | cons ch rest ih =>
    cases hr : lastEnglish k rest with
    | some c' => exact ⟨c', by simp only [lastEnglish, hr]⟩
    | none =>
      rcases List.mem_cons.mp hc with h | h
      · subst h
        refine ⟨c, ?_⟩
        simp only [lastEnglish, hr]
        simp [hv, hen]
      · obtain ⟨c', hc'⟩ := ih h
        rw [hr] at hc'
        cases hc'

theorem selectLoop_length (m : List (ℚ × LangEntry)) (ks : List ℚ) (n : Nat) :
    (selectLoop m ks n).length ≤ n := by
  induction ks generalizing n with
  | nil => cases n <;> simp [selectLoop]
  | cons k ks ih =>
    cases n with
    | zero => simp [selectLoop]
    | succ n =>
      cases he : (lookupEntry m k).english with
      | some c =>
        simp only [selectLoop, he, List.length_cons]
        exact Nat.succ_le_succ (ih n)
      | none =>
        cases ho : (lookupEntry m k).other with
        | some c =>
          simp only [selectLoop, he, ho, List.length_cons]
          exact Nat.succ_le_succ (ih n)
        | none =>
          simp only [selectLoop, he, ho]
          exact ih (n + 1)

theorem selectLoop_chapNums_sublist (m : List (ℚ × LangEntry)) (ks : List ℚ)
    (n : Nat) :
    ((selectLoop m ks n).map SelectedChapter.chapNum).Sublist ks := by
  induction ks generalizing n with
  | nil => cases n <;> simp [selectLoop]
  | cons k ks ih =>
    cases n with
    | zero => simp [selectLoop]
    | succ n =>
      cases he : (lookupEntry m k).english with
      | some c =>
        simp only [selectLoop, he, List.map_cons]
        exact List.Sublist.cons₂ _ (ih n)
      | none =>
        cases ho : (lookupEntry m k).other with
        | some c =>
          simp only [selectLoop, he, ho, List.map_cons]
          exact List.Sublist.cons₂ _ (ih n)
        | none =>
          simp only [selectLoop, he, ho]
          exact (ih (n + 1)).cons _

/-- Every selected entry comes out of the `chapterMap` at its own key,
either from the `english` slot (then flagged preferred) or, when that slot
is empty, from the `other` slot. -/
theorem selectLoop_mem {m : List (ℚ × LangEntry)} {ks : List ℚ} {n : Nat}
    {s : SelectedChapter} (hs : s ∈ selectLoop m ks n) :
    s.chapNum ∈ ks ∧
      (((lookupEntry m s.chapNum).english = some s.ch ∧ s.isEnglish = true) ∨
        ((lookupEntry m s.chapNum).english = none ∧
          (lookupEntry m s.chapNum).other = some s.ch ∧ s.isEnglish = false)) := by
  induction ks generalizing n with
  | nil => cases n <;> simp [selectLoop] at hs
  | cons k ks ih =>
    cases n with
    | zero => simp [selectLoop] at hs
    | succ n =>
      cases he : (lookupEntry m k).english with
      | some c =>
        simp only [selectLoop, he] at hs
        rcases List.mem_cons.mp hs with h | h
        · subst h
          exact ⟨List.mem_cons_self _ _, Or.inl ⟨he, rfl⟩⟩
        · obtain ⟨h1, h2⟩ := ih h
          exact ⟨List.mem_cons_of_mem _ h1, h2⟩
      | none =>
        cases ho : (lookupEntry m k).other with
        | some c =>
          simp only [selectLoop, he, ho] at hs
          rcases List.mem_cons.mp hs with h | h
          · subst h
            exact ⟨List.mem_cons_self _ _, Or.inr ⟨he, ho, rfl⟩⟩
          · obtain ⟨h1, h2⟩ := ih h
            exact ⟨List.mem_cons_of_mem _ h1, h2⟩
        | none =>
          simp only [selectLoop, he, ho] at hs
          obtain ⟨h1, h2⟩ := ih hs
          exact ⟨List.mem_cons_of_mem _ h1, h2⟩

theorem foldl_selectStep_keys_nodup (l : List ChapterRef)
    (m : List (ℚ × LangEntry)) (hm : (m.map Prod.fst).Nodup) :
    ((l.foldl selectStep m).map Prod.fst).Nodup := by
  induction l generalizing m with
  | nil => simpa using hm
  | cons ch rest ih =>
    rw [List.foldl_cons]
    apply ih
    cases hx : ch.externalUrl with
    | true => simpa [selectStep, hx] using hm
    | false =>
      cases hp : parseChapterNum ch.chapter with
      | none => simpa [selectStep, hx, hp] using hm
      | some k =>
        simp only [selectStep, hx, hp, Bool.false_eq_true, if_false]
        rw [insertChapter_keys]
        by_cases hmem : k ∈ m.map Prod.fst
        · simpa [hmem] using hm
        · simp [hmem, List.nodup_append, hm]

theorem buildMap_keys_nodup (l : List ChapterRef) :
    ((buildMap l).map Prod.fst).Nodup :=
  foldl_selectStep_keys_nodup l [] (by simp)

/-- C1: for every input list of chapter descriptors and every
`maxChapters` bound, `selectChapters` returns at most `maxChapters`
entries, and the parsed numeric chapter keys of the output are strictly
increasing — in particular pairwise distinct. -/
theorem C1_selector_bounded_ascending_nodup (allChapters : List ChapterRef)
    (maxChapters : Nat) :
    (selectChapters allChapters maxChapters).length ≤ maxChapters ∧
      ((selectChapters allChapters maxChapters).map
        SelectedChapter.chapNum).Sorted (· < ·) ∧
      ((selectChapters allChapters maxChapters).map
        SelectedChapter.chapNum).Nodup := by
  have hperm := List.perm_insertionSort (· ≤ ·) ((buildMap allChapters).map Prod.fst)
  have hsorted :
      (List.insertionSort (· ≤ ·) ((buildMap allChapters).map Prod.fst)).Sorted
        (· ≤ ·) :=
    List.sorted_insertionSort _ _
  have hnd :
      (List.insertionSort (· ≤ ·) ((buildMap allChapters).map Prod.fst)).Nodup :=
    hperm.nodup_iff.mpr (buildMap_keys_nodup allChapters)
  have hlt := hsorted.lt_of_le hnd
  have hsub := selectLoop_chapNums_sublist (buildMap allChapters)
    (List.insertionSort (· ≤ ·) ((buildMap allChapters).map Prod.fst)) maxChapters
  exact ⟨selectLoop_length _ _ _, List.Pairwise.sublist hsub hlt,
    (List.Pairwise.sublist hsub hlt).imp fun h => ne_of_lt h⟩

/-- C5: a chapter number present in the input both in the preferred
language ("en") and in some non-preferred language is always resolved to
the preferred-language descriptor; in particular the chapters
[("1","en"), ("1","ja"), ("2","ja")] with maxChapters 10 select chapter 1
in English and chapter 2 in Japanese. -/
theorem C5_preferred_language_resolution :
    (∀ (l : List ChapterRef) (maxChapters : Nat) (s : SelectedChapter)
        (c : ChapterRef), c ∈ l → c.externalUrl = false →
        parseChapterNum c.chapter = some s.chapNum →
        c.translatedLanguage = "en" → s ∈ selectChapters l maxChapters →
        s.isEnglish = true ∧ s.ch.translatedLanguage = "en") ∧
      selectChapters [⟨some "1", false, "en", 0⟩, ⟨some "1", false, "ja", 1⟩,
          ⟨some "2", false, "ja", 2⟩] 10 =
        [⟨⟨some "1", false, "en", 0⟩, true, 1⟩,
          ⟨⟨some "2", false, "ja", 2⟩, false, 2⟩] := by
  constructor
  · intro l maxChapters s c hc hx hp hen hs
    obtain ⟨-, hcase⟩ := selectLoop_mem hs
    simp only [lookupEntry_buildMap] at hcase
    rcases hcase with ⟨he, hb⟩ | ⟨he, -, -⟩
    · exact ⟨hb, (lastEnglish_eq_some he).2.2⟩
    · obtain ⟨c', hc'⟩ := lastEnglish_isSome hc ⟨hx, hp⟩ hen
      rw [he] at hc'
      cases hc'
  · decide

/-- Witness for C5 at the spec scenario input. -/
theorem C5_preferred_language_resolution_witness :
    (⟨⟨some "1", false, "en", 0⟩, true, 1⟩ : SelectedChapter).isEnglish = true ∧
      (⟨⟨some "1", false, "en", 0⟩, true,
        1⟩ : SelectedChapter).ch.translatedLanguage = "en" :=
  C5_preferred_language_resolution.1
    [⟨some "1", false, "en", 0⟩, ⟨some "1", false, "ja", 1⟩,
      ⟨some "2", false, "ja", 2⟩] 10
    ⟨⟨some "1", false, "en", 0⟩, true, 1⟩ ⟨some "1", false, "en", 0⟩
    (by decide) (by decide) (by decide) (by decide) (by decide)

/-- C9: a descriptor that is selected always passed the filter of the
grouping loop: it is not external-only and its chapter string parses to
exactly the numeric key it is selected under — so descriptors with a
missing or unparsable numeric index, or marked external-only, never
appear in the output. -/
theorem C9_dropped_descriptors_never_selected (l : List ChapterRef)
    (maxChapters : Nat) (s : SelectedChapter)
    (hs : s ∈ selectChapters l maxChapters) :
    s.ch.externalUrl = false ∧
      parseChapterNum s.ch.chapter = some s.chapNum := by
  obtain ⟨-, hcase⟩ := selectLoop_mem hs
  simp only [lookupEntry_buildMap] at hcase
  rcases hcase with ⟨he, -⟩ | ⟨-, ho, -⟩
  · exact (lastEnglish_eq_some he).2.1
  · exact (firstOther_eq_some ho).2.1

/-- Witness for C9 at a concrete single-descriptor input. -/
theorem C9_dropped_descriptors_never_selected_witness :
    (⟨some "7", false, "ko", 5⟩ : ChapterRef).externalUrl = false ∧
      parseChapterNum (⟨some "7", false, "ko", 5⟩ : ChapterRef).chapter =
        some 7 :=
  C9_dropped_descriptors_never_selected [⟨some "7", false, "ko", 5⟩] 3
    ⟨⟨some "7", false, "ko", 5⟩, false, 7⟩ (by decide)

/-- C10: within one numeric-key group `selectChapters` keeps the
last-seen preferred-language descriptor (each later "en" descriptor
overwrites the earlier one), whereas among non-preferred descriptors the
first-seen one is kept. -/
theorem C10_group_tie_breaking (l : List ChapterRef) (maxChapters : Nat)
    (s : SelectedChapter) (hs : s ∈ selectChapters l maxChapters) :
    (s.isEnglish = true → lastEnglish s.chapNum l = some s.ch) ∧
      (s.isEnglish = false → firstOther s.chapNum l = some s.ch) := by
  obtain ⟨-, hcase⟩ := selectLoop_mem hs
  simp only [lookupEntry_buildMap] at hcase
  rcases hcase with ⟨he, hb⟩ | ⟨-, ho, hb⟩
  · refine ⟨fun _ => he, fun hfalse => ?_⟩
    rw [hb] at hfalse
    cases hfalse
  · refine ⟨fun htrue => ?_, fun _ => ho⟩
    rw [hb] at htrue
    cases htrue

/-- Witness for C10: two "en" descriptors of chapter 3 — the later one is
kept; two non-"en" descriptors of chapter 4 — the earlier one is kept. -/
theorem C10_group_tie_breaking_witness :
    lastEnglish 3 [⟨some "3", false, "en", 0⟩, ⟨some "3", false, "en", 1⟩] =
        some ⟨some "3", false, "en", 1⟩ ∧
      firstOther 4 [⟨some "4", false, "ja", 2⟩, ⟨some "4", false, "ko", 3⟩] =
        some ⟨some "4", false, "ja", 2⟩ :=
  ⟨(C10_group_tie_breaking
      [⟨some "3", false, "en", 0⟩, ⟨some "3", false, "en", 1⟩] 5
      ⟨⟨some "3", false, "en", 1⟩, true, 3⟩ (by decide)).1 rfl,
    (C10_group_tie_breaking
      [⟨some "4", false, "ja", 2⟩, ⟨some "4", false, "ko", 3⟩] 5
      ⟨⟨some "4", false, "ja", 2⟩, false, 4⟩ (by decide)).2 rfl⟩

theorem group_bound_of {maxSizeMB curSize : ℚ} {g : ChapterGroup}
    (hg : curSize = (g.totalSize : ℚ) / (1024 * 1024))
    (hok : g.chapters.length = 1 ∨ curSize ≤ maxSizeMB) :
    g.chapters.length = 1 ∨ (g.totalSize : ℚ) ≤ maxSizeMB * (1024 * 1024) := by
  rcases hok with h | h
  · exact Or.inl h
  · right
    rw [hg] at h
    have h2 := mul_le_mul_of_nonneg_right h (by norm_num : (0 : ℚ) ≤ 1024 * 1024)
    rwa [div_mul_cancel₀] at h2
    norm_num

theorem groupChaptersAux_size_bound (maxSizeMB : ℚ) (l : List ChapterArchive)
    (g : ChapterGroup) (curSize : ℚ)
    (hg : curSize = (g.totalSize : ℚ) / (1024 * 1024))
    (hok : g.chapters.length = 1 ∨ curSize ≤ maxSizeMB) :
    ∀ b ∈ groupChaptersAux maxSizeMB l g curSize,
      b.chapters.length = 1 ∨ (b.totalSize : ℚ) ≤ maxSizeMB * (1024 * 1024) := by
  induction l generalizing g curSize with
  | nil =>
    intro b hb
    simp only [groupChaptersAux, List.mem_singleton] at hb
    subst hb
    exact group_bound_of hg hok
  | cons ch rest ih =>
    intro b hb
    simp only [groupChaptersAux] at hb
    split at hb
    · next hcond =>
      refine ih _ _ ?_ (Or.inr hcond) b hb
      rw [hg]
      push_cast
      ring
    · rcases List.mem_cons.mp hb with h | h
      · subst h
        exact group_bound_of hg hok
      · exact ih _ _ rfl (Or.inl (by simp)) b h

theorem groupChaptersAux_flatten (maxSizeMB : ℚ) (l : List ChapterArchive)
    (g : ChapterGroup) (curSize : ℚ) :
    ((groupChaptersAux maxSizeMB l g curSize).map ChapterGroup.chapters).flatten =
      g.chapters ++ l := by
  induction l generalizing g curSize with
  | nil => simp [groupChaptersAux]
  | cons ch rest ih =>
    simp only [groupChaptersAux]
    split
    · rw [ih]
      simp
    · simp [ih]

theorem mainChapterLoopAux_size_bound (steps : List MainStep)
    (cur : MainBundle)
    (hok : cur.chapters.length = 1 ∨ cur.size ≤ TELEGRAM_FILE_LIMIT) :
    ∀ b ∈ (mainChapterLoopAux steps cur).bundles,
      b.chapters.length = 1 ∨ b.size ≤ TELEGRAM_FILE_LIMIT := by
  induction steps generalizing cur with
  | nil =>
    intro b hb
    simp only [mainChapterLoopAux] at hb
    split at hb
    · rw [List.mem_singleton] at hb
      subst hb
      exact hok
    · cases hb
  | cons st rest ih =>
    intro b hb
    cases hst : st.outcome with
    | none =>
      simp only [mainChapterLoopAux, hst] at hb
      exact ih cur hok b hb
    | some c =>
      simp only [mainChapterLoopAux, hst] at hb
      split at hb
      · rcases List.mem_cons.mp hb with h | h
        · subst h
          exact hok
        · exact ih _ (Or.inl (by simp)) b h
      · next hcond =>
        rcases not_and_or.mp hcond with h | h
        · refine ih _ (Or.inr ?_) b hb
          simpa using Nat.le_of_not_lt h
        · refine ih _ (Or.inl ?_) b hb
          have hz : cur.chapters.length = 0 := by omega
          simp [List.length_eq_zero.mp hz]

theorem mainChapterLoopAux_flatten (steps : List MainStep) (cur : MainBundle) :
    ((mainChapterLoopAux steps cur).bundles.map MainBundle.chapters).flatten =
      cur.chapters ++ steps.filterMap MainStep.outcome := by
  induction steps generalizing cur with
  | nil =>
    simp only [mainChapterLoopAux]
    split
    · simp
    · next h =>
      have hz : cur.chapters = [] := List.length_eq_zero.mp (by omega)
      simp [hz]
  | cons st rest ih =>
    cases hst : st.outcome with
    | none => simp [mainChapterLoopAux, hst, ih, List.filterMap_cons]
    | some c =>
      simp only [mainChapterLoopAux, hst]
      split
      · simp [ih, List.filterMap_cons, hst]
      · simp [ih, List.filterMap_cons, hst]

theorem mainChapterLoopAux_leftoverDirs (steps : List MainStep)
    (cur : MainBundle) :
    (mainChapterLoopAux steps cur).leftoverDirs =
      (steps.filter fun st => st.outcome.isNone).map MainStep.dirId := by
  induction steps generalizing cur with
  | nil => simp [mainChapterLoopAux]
  | cons st rest ih =>
    cases hst : st.outcome with
    | none => simp [mainChapterLoopAux, hst, ih, List.filter_cons]
    | some c =>
      simp only [mainChapterLoopAux, hst]
      split
      · simp [ih, List.filter_cons, hst]
      · simp [ih, List.filter_cons, hst]

/-- C2: every bundle produced by either bundling implementation
(`groupChapters` of `src/unnamed/part_000` and the bundling loop of
`main` in `src/scripts/download.js`) has total size at most the
configured cap, except that a bundle with exactly one member may exceed
it. -/
theorem C2_bundle_size_cap :
    (∀ (chapterList : List ChapterArchive) (maxSizeMB : ℚ)
        (b : ChapterGroup), b ∈ groupChapters chapterList maxSizeMB →
        b.chapters.length = 1 ∨
          (b.totalSize : ℚ) ≤ maxSizeMB * (1024 * 1024)) ∧
      ∀ (steps : List MainStep) (b : MainBundle),
        b ∈ (mainChapterLoop steps).bundles →
        b.chapters.length = 1 ∨ b.size ≤ TELEGRAM_FILE_LIMIT := by
  constructor
  · intro chapterList maxSizeMB b hb
    cases chapterList with
    | nil => cases hb
    | cons ch rest =>
      exact groupChaptersAux_size_bound maxSizeMB rest _ _ rfl (Or.inl (by simp)) b hb
  · intro steps b hb
    exact mainChapterLoopAux_size_bound steps ⟨[], 0⟩ (Or.inr (by decide)) b hb

/-- Witness for C2: a 30 MB archive under a 25 MB cap becomes a singleton
bundle, and a packed 100-byte chapter bundles under the Telegram limit. -/
theorem C2_bundle_size_cap_witness :
    ((⟨[⟨31457280, 1, 0⟩], 31457280, 1, 1⟩ : ChapterGroup).chapters.length = 1 ∨
        ((⟨[⟨31457280, 1, 0⟩], 31457280, 1,
          1⟩ : ChapterGroup).totalSize : ℚ) ≤ 25 * (1024 * 1024)) ∧
      ((⟨[⟨0, 1, 100⟩], 100⟩ : MainBundle).chapters.length = 1 ∨
        (⟨[⟨0, 1, 100⟩], 100⟩ : MainBundle).size ≤ TELEGRAM_FILE_LIMIT) :=
  ⟨C2_bundle_size_cap.1 [⟨31457280, 1, 0⟩] 25 ⟨[⟨31457280, 1, 0⟩], 31457280, 1, 1⟩
      (by decide),
    C2_bundle_size_cap.2 [⟨0, some ⟨0, 1, 100⟩⟩] ⟨[⟨0, 1, 100⟩], 100⟩ (by decide)⟩

/-- C3: concatenating the members of the produced bundles, in bundle
order then intra-bundle order, reproduces the original ordered archive
list exactly, for both bundling implementations; in particular archive
sizes [10,10,10,30] MB with cap 25 MB yield the bundles
[[10,10],[10],[30]]. -/
theorem C3_bundles_concat_identity :
    (∀ (chapterList : List ChapterArchive) (maxSizeMB : ℚ),
        ((groupChapters chapterList maxSizeMB).map
          ChapterGroup.chapters).flatten = chapterList) ∧
      (∀ steps : List MainStep,
        ((mainChapterLoop steps).bundles.map MainBundle.chapters).flatten =
          steps.filterMap MainStep.outcome) ∧
      (groupChapters [⟨10485760, 1, 0⟩, ⟨10485760, 2, 1⟩, ⟨10485760, 3, 2⟩,
            ⟨31457280, 4, 3⟩] 25).map
          (fun g => g.chapters.map ChapterArchive.size) =
        [[10485760, 10485760], [10485760], [31457280]] := by
  refine ⟨?_, ?_, ?_⟩
  · intro chapterList maxSizeMB
    cases chapterList with
    | nil => simp [groupChapters]
    | cons ch rest => simp [groupChapters, groupChaptersAux_flatten]
  · intro steps
    simp [mainChapterLoop, mainChapterLoopAux_flatten]
  · norm_num [groupChapters, groupChaptersAux]

/-- C7 counterexample: one chapter whose download fails — after the
loop its working directory is still on disk, so the failed chapter's
partial local state was not discarded. -/
theorem C7_failed_chapter_dir_left_behind :
    (mainChapterLoop [⟨0, none⟩]).leftoverDirs = [0] ∧
      (mainChapterLoop [⟨0, none⟩]).leftoverDirs ≠ [] := by
  decide

/-- C7 amended: a chapter-level failure never aborts the chapter loop —
every other chapter is still processed and bundled in order and the
failed chapter contributes no archive — but the failed chapter's
partial local state is NOT discarded at failure time: its working
directory remains after the loop, one per failed chapter (it is removed
only with the whole working directory at the end of a successful run). -/
theorem C7_failure_skipped_but_dir_kept (steps : List MainStep) :
    ((mainChapterLoop steps).bundles.map MainBundle.chapters).flatten =
        steps.filterMap MainStep.outcome ∧
      (mainChapterLoop steps).leftoverDirs =
        (steps.filter fun st => st.outcome.isNone).map MainStep.dirId :=
  ⟨mainChapterLoopAux_flatten steps ⟨[], 0⟩,
    mainChapterLoopAux_leftoverDirs steps ⟨[], 0⟩⟩

theorem splitFile_map_length {β : Type} :
    ∀ (n : Nat) (buffer : List β), buffer.length = n → ∀ m : Nat,
      (splitFile buffer m).map List.length = chunkSizes n m := by
  intro n
  induction n using Nat.strong_induction_on with
  | _ n ih =>
    intro buffer hn m
    subst hn
    rw [splitFile, chunkSizes]
    by_cases h1 : buffer.length = 0
    · rw [if_pos h1, if_pos h1]
      rfl
    · rw [if_neg h1, if_neg h1]
      by_cases h2 : m = 0
      · rw [if_pos h2, if_pos h2]
        rfl
      · rw [if_neg h2, if_neg h2, List.map_cons, List.length_take,
          ih (buffer.length - m) (by omega) (buffer.drop m)
            (List.length_drop m buffer) m]

theorem splitFile_flatten_eq {β : Type} :
    ∀ (n : Nat) (buffer : List β), buffer.length = n → ∀ m : Nat, 0 < m →
      (splitFile buffer m).flatten = buffer := by
  intro n
  induction n using Nat.strong_induction_on with
  | _ n ih =>
    intro buffer hn m hm
    subst hn
    rw [splitFile]
    by_cases h1 : buffer.length = 0
    · rw [if_pos h1]
      simp [List.length_eq_zero.mp h1]
    · rw [if_neg h1, if_neg (by omega : ¬m = 0)]
      rw [List.flatten_cons,
        ih (buffer.length - m) (by omega) (buffer.drop m)
          (List.length_drop m buffer) m hm]
      exact List.take_append_drop m buffer

theorem splitFile_ne_nil {β : Type} (buffer : List β) (m : Nat)
    (hb : ¬buffer.length = 0) (hm : 0 < m) : splitFile buffer m ≠ [] := by
  rw [splitFile, if_neg hb, if_neg (by omega : ¬m = 0)]
  exact List.cons_ne_nil _ _

theorem splitFile_dropLast_length {β : Type} :
    ∀ (n : Nat) (buffer : List β), buffer.length = n → ∀ m : Nat, 0 < m →
      ∀ p ∈ (splitFile buffer m).dropLast, p.length = m := by
  intro n
  induction n using Nat.strong_induction_on with
  | _ n ih =>
    intro buffer hn m hm p hp
    subst hn
    rw [splitFile] at hp
    by_cases h1 : buffer.length = 0
    · rw [if_pos h1] at hp
      cases hp
    · rw [if_neg h1, if_neg (by omega : ¬m = 0)] at hp
      by_cases hd : (buffer.drop m).length = 0
      · rw [splitFile, if_pos hd] at hp
        cases hp
      · rw [List.dropLast_cons_of_ne_nil (splitFile_ne_nil _ _ hd hm)] at hp
        rcases List.mem_cons.mp hp with h | h
        · subst h
          rw [List.length_take]
          have hlt : m < buffer.length := by
            rw [List.length_drop] at hd
            omega
          omega
        · exact ih (buffer.length - m) (by omega) (buffer.drop m)
            (List.length_drop m buffer) m hm p h

/-- C4: for every file content and positive chunk size, every part the
split produces except the last has exactly the configured chunk size,
and concatenating the parts in order reproduces the file byte for byte;
in particular a 120 MB artifact under the 45 MB chunk cap yields 3
parts of 45, 45 and 30 MB. -/
theorem C4_splitFile_exact_parts :
    (∀ (buffer : List Nat) (m : Nat), 0 < m →
        (∀ p ∈ (splitFile buffer m).dropLast, p.length = m) ∧
          (splitFile buffer m).flatten = buffer) ∧
      (splitFile (List.replicate (120 * 1048576) (0 : Nat))
          MAX_SPLIT_SIZE).map List.length =
        [45 * 1048576, 45 * 1048576, 30 * 1048576] := by
  constructor
  · intro buffer m hm
    exact ⟨splitFile_dropLast_length buffer.length buffer rfl m hm,
      splitFile_flatten_eq buffer.length buffer rfl m hm⟩
  · rw [splitFile_map_length (List.replicate (120 * 1048576) (0 : Nat)).length
      _ rfl MAX_SPLIT_SIZE, List.length_replicate]
    rw [MAX_SPLIT_SIZE]
    rw [chunkSizes]
    norm_num
    rw [chunkSizes]
    norm_num
    rw [chunkSizes]
    norm_num
    rw [chunkSizes]
    norm_num

/-- Witness for C4 at a small concrete buffer. -/
theorem C4_splitFile_exact_parts_witness :
    (splitFile [1, 2, 3] 2).flatten = [1, 2, 3] :=
  (C4_splitFile_exact_parts.1 [1, 2, 3] 2 (by decide)).2

theorem sendLoopAux_attempts_le (responses : Nat → AttemptOutcome)
    (remaining : Nat) :
    ∀ attempt w : Nat,
      (sendLoopAux responses remaining attempt w).attempts ≤
        attempt + remaining - 1 := by
  induction remaining with
  | zero => intro attempt w; simp [sendLoopAux]
  | succ r ih =>
    intro attempt w
    cases hr : responses attempt with
    | ok =>
      simp only [sendLoopAux, hr]
      omega
    | rateLimited ra =>
      simp only [sendLoopAux, hr]
      have := ih (attempt + 1) (w + rateLimitWaitMs ra)
      omega
    | apiError =>
      simp only [sendLoopAux, hr]
      split
      · have := ih (attempt + 1) (w + backoffMs attempt)
        omega
      · have := ih (attempt + 1) w
        omega
    | netError =>
      simp only [sendLoopAux, hr]
      split
      · show attempt ≤ attempt + (r + 1) - 1
        omega
      · have := ih (attempt + 1) (w + backoffMs attempt)
        omega

theorem sendLoopAux_rateLimited (responses : Nat → AttemptOutcome)
    (remaining attempt w : Nat) (ra : Option Nat) (hrem : remaining ≠ 0)
    (h : responses attempt = .rateLimited ra) :
    sendLoopAux responses remaining attempt w =
      sendLoopAux responses (remaining - 1) (attempt + 1)
        (w + rateLimitWaitMs ra) := by
  cases remaining with
  | zero => cases hrem rfl
  | succ r => simp [sendLoopAux, h]

theorem sendLoopAux_ok (responses : Nat → AttemptOutcome)
    (remaining attempt w : Nat) (hrem : remaining ≠ 0)
    (h : responses attempt = .ok) :
    sendLoopAux responses remaining attempt w = ⟨attempt, w, .success⟩ := by
  cases remaining with
  | zero => cases hrem rfl
  | succ r => simp [sendLoopAux, h]

/-- C6: the upload loop makes at most `SEND_MAX_ATTEMPTS` attempts; on
every attempt that can still retry, the plain-failure delay follows the
exponential schedule `1000 * 2 ^ attempt`; every rate-limit wait is the
server-declared duration capped at 10 s, and such an attempt still
advances the attempt counter; in the spec scenario — attempts 1 and 2
rate-limited with a declared 5 s wait, attempt 3 successful — there are
exactly 3 attempts, the result is success, and the total enforced wait
is 10000 ms ≥ 10 s. -/
theorem C6_retry_bounded_and_rate_limit_waits :
    (∀ responses : Nat → AttemptOutcome,
        (sendDocumentWithThumb responses).attempts ≤ SEND_MAX_ATTEMPTS) ∧
      (∀ attempt : Nat, 1 ≤ attempt → attempt < SEND_MAX_ATTEMPTS →
        backoffMs attempt = 1000 * 2 ^ attempt) ∧
      (∀ ra : Option Nat, rateLimitWaitMs ra ≤ 10000) ∧
      ∀ responses : Nat → AttemptOutcome,
        responses 1 = .rateLimited (some 5) →
        responses 2 = .rateLimited (some 5) → responses 3 = .ok →
        (sendDocumentWithThumb responses).attempts = 3 ∧
          (sendDocumentWithThumb responses).result = .success ∧
          10000 ≤ (sendDocumentWithThumb responses).totalWaitMs := by
  refine ⟨?_, ?_, ?_, ?_⟩
  · intro responses
    have h := sendLoopAux_attempts_le responses SEND_MAX_ATTEMPTS 1 0
    simpa [sendDocumentWithThumb, SEND_MAX_ATTEMPTS] using h
  · intro attempt h1 h2
    rw [SEND_MAX_ATTEMPTS] at h2
    interval_cases attempt <;> decide
  · intro ra
    exact min_le_right _ _
  · intro responses h1 h2 h3
    have hw : rateLimitWaitMs (some 5) = 5000 := by decide
    have key : sendDocumentWithThumb responses = ⟨3, 10000, .success⟩ := by
      rw [sendDocumentWithThumb, SEND_MAX_ATTEMPTS,
        sendLoopAux_rateLimited responses 3 1 0 (some 5) (by norm_num) h1, hw]
      norm_num
      rw [sendLoopAux_rateLimited responses 2 2 5000 (some 5) (by norm_num) h2,
        hw]
      norm_num
      rw [sendLoopAux_ok responses 1 3 10000 (by norm_num) h3]
    rw [key]
    exact ⟨rfl, rfl, by norm_num⟩

/-- Witness for C6 at the spec scenario: rate-limited with a declared
5 s wait on attempts 1 and 2, success on attempt 3. -/
theorem C6_retry_bounded_and_rate_limit_waits_witness :
    (sendDocumentWithThumb fun a =>
        if a = 3 then .ok else .rateLimited (some 5)).attempts = 3 ∧
      (sendDocumentWithThumb fun a =>
        if a = 3 then .ok else .rateLimited (some 5)).result = .success ∧
      10000 ≤ (sendDocumentWithThumb fun a =>
        if a = 3 then .ok else .rateLimited (some 5)).totalWaitMs :=
  C6_retry_bounded_and_rate_limit_waits.2.2.2 _ (by decide) (by decide)
    (by decide)

/-- C8 counterexample: the empty-selection abort (all configuration
present, catalog fine, selection empty) exits with code 1 without
attempting any failure notification. -/
theorem C8_selection_empty_exits_without_notice :
    (mainRunOutcome ⟨true, true, true, true, true⟩).exitCode = 1 ∧
      (mainRunOutcome ⟨true, true, true, true, true⟩).failureNotices = 0 := by
  decide

/-- C8 amended: only errors thrown inside the `try` (such as a failed
catalog lookup) receive the single best-effort failure notification of
the `catch` block before the non-zero exit; the empty-selection abort
and the missing-configuration aborts exit non-zero without attempting
any notification; no path attempts more than one notification. -/
theorem C8_abort_notification_paths (c : RunCondition) :
    (c.mangaInputSet = true → c.chatIdSet = true → c.botTokenSet = true →
        c.catalogOk = false → mainRunOutcome c = ⟨1, 1⟩) ∧
      (c.mangaInputSet = true → c.chatIdSet = true → c.botTokenSet = true →
        c.catalogOk = true → c.selectionEmpty = true →
        mainRunOutcome c = ⟨1, 0⟩) ∧
      ((c.mangaInputSet = false ∨ c.chatIdSet = false ∨
        c.botTokenSet = false) → mainRunOutcome c = ⟨1, 0⟩) ∧
      (mainRunOutcome c).failureNotices ≤ 1 := by
  obtain ⟨mi, ci, bt, co, se⟩ := c
  cases mi <;> cases ci <;> cases bt <;> cases co <;> cases se <;>
    simp [mainRunOutcome]

/-- Witness for C8: a thrown catalog failure notifies once and exits 1;
a missing `MANGA_INPUT` exits 1 without notifying. -/
theorem C8_abort_notification_paths_witness :
    mainRunOutcome ⟨true, true, true, false, false⟩ = ⟨1, 1⟩ ∧
      mainRunOutcome ⟨false, true, true, true, false⟩ = ⟨1, 0⟩ :=
  ⟨(C8_abort_notification_paths ⟨true, true, true, false, false⟩).1 rfl rfl
      rfl rfl,
    (C8_abort_notification_paths ⟨false, true, true, true, false⟩).2.2.1
      (Or.inl rfl)⟩

end MangaPipeline

